import Mathlib

/-!
Verification of the incremental similarity-and-relevance pipeline of the
Jina note-linker repository.  Python strings are modelled as `List Char`,
Python floats as real numbers, the SQLite-backed stores as association
lists, and the external providers as explicit oracle parameters.  Every
definition in the `JinaLinker` namespace is a direct shallow embedding of
the correspondingly named Python function.
-/

namespace JinaLinker

/-- ASCII whitespace characters recognised by Python's `str.strip` family
(`' '`, `'\t'`, `'\n'`, `'\r'`, `'\x0b'`, `'\x0c'`). -/
def pyIsSpace (c : Char) : Bool :=
  c = ' ' || c = '\t' || c = '\n' || c = '\r' || c = '\x0B' || c = '\x0C'

/-- Python `str.strip()` on a character list. -/
def pyStrip (l : List Char) : List Char :=
  ((l.dropWhile pyIsSpace).reverse.dropWhile pyIsSpace).reverse

/-- Python `str.rstrip()` on a character list. -/
def pyRstrip (l : List Char) : List Char :=
  (l.reverse.dropWhile pyIsSpace).reverse

/-- Python `str.rstrip("\r\n")` on a character list. -/
def pyRstripCRLF (l : List Char) : List Char :=
  (l.reverse.dropWhile (fun c => c = '\r' || c = '\n')).reverse

/-- Python `str.replace("\r\n", "\n")`: one left-to-right pass replacing
each non-overlapping occurrence of CR LF by LF. -/
def replaceCRLF : List Char → List Char
  | [] => []
  | '\r' :: '\n' :: rest => '\n' :: replaceCRLF rest
  | c :: rest => c :: replaceCRLF rest

/-- Python `text.find(pat)` combined with the slice `text[:idx]`: returns
the text strictly before the first occurrence of `pat`, or `none` when
`pat` does not occur (`find` returned `-1`). -/
def beforeFirst (pat : List Char) : List Char → Option (List Char)
  | [] => if pat.isPrefixOf ([] : List Char) then some [] else none
  | c :: rest =>
    if pat.isPrefixOf (c :: rest) then some []
    else (beforeFirst pat rest).map (fun t => c :: t)

/-- The `HASH_BOUNDARY_MARKER` constant of `hash_utils/hasher.py`. -/
def hashBoundaryMarker : List Char := "<!-- HASH_BOUNDARY -->".data

/-- Shallow embedding of `extract_content_for_hashing` from
`python_src/hash_utils/hasher.py`: text before the boundary marker,
`none` when the marker is absent; whitespace-only prefixes normalise to a
single newline, otherwise CRLF is replaced by LF, trailing whitespace is
stripped and a single newline appended. -/
def extract_content_for_hashing (text_body : List Char) : Option (List Char) :=
  match beforeFirst hashBoundaryMarker text_body with
  | none => none
  | some content =>
    if pyStrip content = [] then some ['\n']
    else some (pyRstrip (replaceCRLF content) ++ ['\n'])

/-- Normalisation of hashable content transcribed from the specification's
words, for comparison against the code: "line endings normalized to `\n`,
trailing whitespace-only lines stripped, and exactly one trailing `\n`
appended; empty (or whitespace-only) pre-marker content normalizes to a
single newline"; lines other than trailing whitespace-only lines are left
unchanged. -/
def spec_normalize_hashable (content : List Char) : List Char :=
  if pyStrip content = [] then ['\n']
  else
    (List.intercalate ['\n']
      (((replaceCRLF content).splitOn '\n').rdropWhile
        (fun ln => (pyStrip ln).isEmpty))) ++ ['\n']

theorem pyRstrip_eq_rdropWhile (l : List Char) :
    pyRstrip l = List.rdropWhile pyIsSpace l := rfl

theorem pyRstrip_getLast_not_space (l : List Char) (h : pyRstrip l ≠ []) :
    pyIsSpace ((pyRstrip l).getLast h) = false := by
  have h' : List.rdropWhile pyIsSpace l ≠ [] := h
  have := List.rdropWhile_last_not pyIsSpace l h'
  simpa using this

theorem beforeFirst_eq_none {pat : List Char} :
    ∀ l : List Char, beforeFirst pat l = none ↔ ¬ pat <:+: l := by
  intro l
  induction l with
  | nil =>
    rw [beforeFirst]
    by_cases h : pat <+: ([] : List Char)
    · rw [if_pos (List.isPrefixOf_iff_prefix.mpr h)]
      rw [List.prefix_nil] at h
      subst h
      simp [List.infix_nil]
    · rw [if_neg (fun hb => h (List.isPrefixOf_iff_prefix.mp hb))]
      rw [List.infix_nil]
      simp only [true_iff]
      intro he
      exact h (he ▸ List.prefix_rfl)
  | cons c rest ih =>
    rw [beforeFirst]
    by_cases h : pat <+: (c :: rest)
    · rw [if_pos (List.isPrefixOf_iff_prefix.mpr h)]
      simp [List.infix_cons_iff, h]
    · rw [if_neg (fun hb => h (List.isPrefixOf_iff_prefix.mp hb))]
      rw [List.infix_cons_iff]
      simp [Option.map_eq_none', ih, h]

/-- C7 (corrected), counterexample: on the pre-marker text `"abc \n"` the
claimed normalisation (strip only trailing whitespace-only lines, leave
other lines unchanged) yields `"abc \n"`, but `extract_content_for_hashing`
yields `"abc\n"`: the trailing space of the last non-blank line is also
stripped, so the claim as stated is false. -/
theorem C7_counterexample :
    beforeFirst hashBoundaryMarker ("abc \n<!-- HASH_BOUNDARY -->".data)
      = some ("abc \n".data)
    ∧ extract_content_for_hashing ("abc \n<!-- HASH_BOUNDARY -->".data)
      = some ("abc\n".data)
    ∧ spec_normalize_hashable ("abc \n".data) = "abc \n".data
    ∧ "abc\n".data ≠ "abc \n".data := by
  refine ⟨by decide, by decide, by decide, by decide⟩

/-- C7 (amended): when the marker is present, `extract_content_for_hashing`
maps the pre-marker text to CRLF-normalised text with ALL trailing
whitespace stripped (trailing whitespace-only lines and also trailing
whitespace of the last content line) plus exactly one trailing newline;
whitespace-only pre-marker content normalises to the single newline. -/
theorem C7_hashable_normalization (body content : List Char)
    (h : beforeFirst hashBoundaryMarker body = some content) :
    ∃ w, extract_content_for_hashing body = some (w ++ ['\n'])
      ∧ (w = [] ∨ ∀ hw : w ≠ [], pyIsSpace (w.getLast hw) = false)
      ∧ (pyStrip content = [] → w = [])
      ∧ (pyStrip content ≠ [] → w = pyRstrip (replaceCRLF content)) := by
  have hdef : extract_content_for_hashing body =
      (if pyStrip content = [] then some ['\n']
       else some (pyRstrip (replaceCRLF content) ++ ['\n'])) := by
    unfold extract_content_for_hashing
    rw [h]
  by_cases hc : pyStrip content = []
  · refine ⟨[], ?_, Or.inl rfl, fun _ => rfl, fun hn => absurd hc hn⟩
    rw [hdef, if_pos hc]
    rfl
  · refine ⟨pyRstrip (replaceCRLF content), ?_, ?_, fun he => absurd he hc, fun _ => rfl⟩
    · rw [hdef, if_neg hc]
    · by_cases hw : pyRstrip (replaceCRLF content) = []
      · exact Or.inl hw
      · exact Or.inr fun hw' => pyRstrip_getLast_not_space _ hw'

/-- Witness for `C7_hashable_normalization` at a concrete document. -/
theorem C7_witness :
    beforeFirst hashBoundaryMarker ("x<!-- HASH_BOUNDARY -->".data)
      = some ("x".data)
    ∧ ∃ w, extract_content_for_hashing ("x<!-- HASH_BOUNDARY -->".data)
        = some (w ++ ['\n'])
      ∧ (w = [] ∨ ∀ hw : w ≠ [], pyIsSpace (w.getLast hw) = false)
      ∧ (pyStrip ("x".data) = [] → w = [])
      ∧ (pyStrip ("x".data) ≠ [] → w = pyRstrip (replaceCRLF ("x".data))) :=
  ⟨by decide, C7_hashable_normalization _ _ (by decide)⟩

/-! Cosine similarity (`python_src/embeddings/similarity.py`).  Python
floats are modelled as real numbers. -/

/-- Python `sum(a * b for a, b in zip(vec1, vec2))`. -/
def dotList (v1 v2 : List ℝ) : ℝ :=
  ((v1.zip v2).map (fun p => p.1 * p.2)).sum

/-- Python `sum(a * a for a in vec)`. -/
def sumSquares (v : List ℝ) : ℝ :=
  (v.map (fun a => a * a)).sum

/-- Vector magnitude `math.sqrt(sum(a * a for a in vec))`. -/
noncomputable def magnitude (v : List ℝ) : ℝ :=
  Real.sqrt (sumSquares v)

/-- Shallow embedding of `cosine_similarity` from
`python_src/embeddings/similarity.py`.  A `None` argument behaves like the
empty list (both are falsy in the guard `not vec1 or not vec2`). -/
noncomputable def cosine_similarity (vec1 vec2 : List ℝ) : ℝ :=
  if vec1 = [] ∨ vec2 = [] ∨ vec1.length ≠ vec2.length then 0
  else if magnitude vec1 = 0 ∨ magnitude vec2 = 0 then 0
  else dotList vec1 vec2 / (magnitude vec1 * magnitude vec2)

/-- C9 (confirmed): `cosine_similarity` equals `dot / (|a| * |b|)` for
non-empty, equal-dimension vectors of non-zero magnitude; it is `0.0`
whenever either magnitude is zero or the dimensions mismatch, and being a
total function it never raises. -/
theorem C9_cosine_similarity_spec (v1 v2 : List ℝ) :
    (v1 ≠ [] → v2 ≠ [] → v1.length = v2.length →
      magnitude v1 ≠ 0 → magnitude v2 ≠ 0 →
      cosine_similarity v1 v2 = dotList v1 v2 / (magnitude v1 * magnitude v2))
    ∧ (magnitude v1 = 0 ∨ magnitude v2 = 0 → cosine_similarity v1 v2 = 0)
    ∧ (v1.length ≠ v2.length → cosine_similarity v1 v2 = 0) := by
  refine ⟨?_, ?_, ?_⟩
  · intro h1 h2 hl hm1 hm2
    rw [cosine_similarity, if_neg, if_neg]
    · rintro (h | h)
      · exact hm1 h
      · exact hm2 h
    · rintro (h | h | h)
      · exact h1 h
      · exact h2 h
      · exact h hl
  · intro hm
    rw [cosine_similarity]
    by_cases hg : v1 = [] ∨ v2 = [] ∨ v1.length ≠ v2.length
    · rw [if_pos hg]
    · rw [if_neg hg, if_pos hm]
  · intro hl
    rw [cosine_similarity, if_pos (Or.inr (Or.inr hl))]

/-- Witness for `C9_cosine_similarity_spec` at `[3,4]`, `[4,3]`. -/
theorem C9_witness :
    (([3, 4] : List ℝ) ≠ [] ∧ magnitude [3, 4] ≠ 0 ∧ magnitude [4, 3] ≠ 0)
    ∧ cosine_similarity [3, 4] [4, 3]
        = dotList [3, 4] [4, 3] / (magnitude [3, 4] * magnitude [4, 3]) := by
  have hm1 : magnitude ([3, 4] : List ℝ) ≠ 0 := by
    rw [magnitude, Real.sqrt_ne_zero']
    simp [sumSquares]
    norm_num
  have hm2 : magnitude ([4, 3] : List ℝ) ≠ 0 := by
    rw [magnitude, Real.sqrt_ne_zero']
    simp [sumSquares]
    norm_num
  refine ⟨⟨by simp, hm1, hm2⟩, ?_⟩
  exact (C9_cosine_similarity_spec [3, 4] [4, 3]).1 (by simp) (by simp) rfl hm1 hm2

/-! Candidate pair generation (`generate_candidate_pairs` in
`python_src/embeddings/similarity.py`). -/

/-- One record of the `files` map handed to `generate_candidate_pairs`
(and produced by `process_and_embed_notes`): `hash`, `embedding`
(`None`-able), `note_id`. -/
structure NoteRec where
  hash : String
  embedding : Option (List ℝ)
  note_id : String

/-- One candidate link pair as produced by `generate_candidate_pairs`. -/
structure CandPair where
  source_path : String
  target_path : String
  jina_similarity : ℝ

/-- Descending-similarity comparison used to model
`candidates.sort(key=..., reverse=True)`. -/
def simGE (x y : CandPair) : Prop :=
  y.jina_similarity ≤ x.jina_similarity

noncomputable instance : DecidableRel simGE :=
  fun x y => Real.decidableLE _ _

instance : IsTotal CandPair simGE :=
  ⟨fun a b => le_total b.jina_similarity a.jina_similarity⟩

instance : IsTrans CandPair simGE :=
  ⟨fun _ _ _ h1 h2 => le_trans h2 h1⟩

/-- Python truthiness of `info.get("embedding")`: `None`, a missing key
and an empty list are all falsy. -/
def embTruthy : Option (List ℝ) → Bool
  | none => false
  | some v => !v.isEmpty

/-- The double loop `for i, p1 in enumerate(valid_paths): for p2 in
valid_paths[i+1:]`, emitting every ordered pair `(p1, p2)` with `p1`
strictly before `p2`, with its cosine similarity. -/
noncomputable def pairCandidates : List (String × List ℝ) → List CandPair
  | [] => []
  | x :: rest =>
    (rest.map fun q => CandPair.mk x.1 q.1 (cosine_similarity x.2 q.2))
      ++ pairCandidates rest

/-- Python `dict.get` over an insertion-ordered association list. -/
def lookupA {α : Type} (m : List (String × α)) (k : String) : Option α :=
  (m.find? fun e => e.1 == k).map Prod.snd

/-- The `valid_paths` selection of `generate_candidate_pairs`, paired
with each file's embedding vector (dict lookup of a valid path returns
that entry's own embedding): files whose `embedding` entry is truthy, in
map insertion order. -/
noncomputable def validVectors (files_data : List (String × NoteRec)) :
    List (String × List ℝ) :=
  (files_data.filter fun e => embTruthy e.2.embedding).map
    fun e => (e.1, e.2.embedding.getD [])

/-- Shallow embedding of `generate_candidate_pairs` from
`python_src/embeddings/similarity.py`: keep files with truthy embeddings
(in map insertion order), form all `i < j` pairs, keep those with
similarity `>=` the threshold (the source filters inside the loop, which
generates the same list), and stable-sort by descending similarity
(Python's `list.sort(..., reverse=True)` is stable). -/
noncomputable def generate_candidate_pairs
    (files_data : List (String × NoteRec)) (similarity_threshold : ℝ) :
    List CandPair :=
  List.insertionSort simGE
    ((pairCandidates (validVectors files_data)).filter
      fun c => decide (similarity_threshold ≤ c.jina_similarity))

/-- Any emitted pair's source key sits strictly before its target key in
the valid-paths list. -/
theorem pairCandidates_positions {l : List (String × List ℝ)} {c : CandPair}
    (h : c ∈ pairCandidates l) :
    ∃ i j, ∃ (hi : i < l.length) (hj : j < l.length), i < j ∧
      (l.get ⟨i, hi⟩).1 = c.source_path ∧ (l.get ⟨j, hj⟩).1 = c.target_path := by
  induction l with
  | nil => simp [pairCandidates] at h
  | cons a rest ih =>
    rw [pairCandidates] at h
    rcases List.mem_append.mp h with h1 | h2
    · obtain ⟨q, hq, hc⟩ := List.mem_map.mp h1
      obtain ⟨n, hn⟩ := List.mem_iff_get.mp hq
      subst hc
      refine ⟨0, n.1 + 1, by simp, by simpa using Nat.succ_lt_succ n.2,
        Nat.succ_pos _, by simp, ?_⟩
      rw [List.get_cons_succ]
      rw [show rest.get ⟨n.1, by simpa using n.2⟩ = q from by
        cases n
        exact hn]
    · obtain ⟨i, j, hi, hj, hij, hs, ht⟩ := ih h2
      refine ⟨i + 1, j + 1, Nat.succ_lt_succ hi, Nat.succ_lt_succ hj,
        Nat.succ_lt_succ hij, ?_, ?_⟩
      · rw [List.get_cons_succ]
        exact hs
      · rw [List.get_cons_succ]
        exact ht

/-- Membership in the sorted output coincides with membership in the
filtered pair list. -/
theorem mem_generate_candidate_pairs
    {files_data : List (String × NoteRec)} {t : ℝ} {c : CandPair} :
    c ∈ generate_candidate_pairs files_data t ↔
      c ∈ pairCandidates (validVectors files_data) ∧ t ≤ c.jina_similarity := by
  rw [generate_candidate_pairs]
  rw [(List.perm_insertionSort simGE _).mem_iff, List.mem_filter]
  simp only [decide_eq_true_eq]

/-- The keys of `validVectors` stay duplicate-free when the input map's
keys are. -/
theorem validVectors_keys_nodup {files_data : List (String × NoteRec)}
    (hnd : (files_data.map Prod.fst).Nodup) :
    ((validVectors files_data).map Prod.fst).Nodup := by
  have h1 : ((files_data.filter fun e => embTruthy e.2.embedding).map
      Prod.fst).Sublist (files_data.map Prod.fst) :=
    (List.filter_sublist _).map _
  have h2 := List.Nodup.sublist h1 hnd
  simpa [validVectors, List.map_map, Function.comp] using h2

/-- Association-list lookup finds the stored value when keys are
duplicate-free. -/
theorem lookupA_eq_some_of_mem {α : Type} {m : List (String × α)}
    {k : String} {v : α} (hnd : (m.map Prod.fst).Nodup)
    (hm : (k, v) ∈ m) : lookupA m k = some v := by
  induction m with
  | nil => simp at hm
  | cons a rest ih =>
    rw [List.map_cons] at hnd
    rw [lookupA]
    by_cases hk : a.1 = k
    · rw [List.find?_cons_of_pos _ (by simp [hk])]
      rcases List.mem_cons.mp hm with he | ht
      · rw [← he]
        rfl
      · exfalso
        have hkm : k ∈ rest.map Prod.fst := List.mem_map.mpr ⟨(k, v), ht, rfl⟩
        exact (List.nodup_cons.mp hnd).1 (hk ▸ hkm)
    · rw [List.find?_cons_of_neg _ (by simp [hk])]
      rcases List.mem_cons.mp hm with he | ht
      · exact absurd (by rw [← he]) hk
      · exact ih (List.nodup_cons.mp hnd).2 ht

/-- Helper fact: the cosine similarity of the one-dimensional vector
`[1]` with itself is `1`. -/
theorem cos_one_one : cosine_similarity [1] [1] = 1 := by
  have hm : magnitude ([1] : List ℝ) = 1 := by
    rw [magnitude, show sumSquares ([1] : List ℝ) = 1 by simp [sumSquares]]
    exact Real.sqrt_one
  rw [cosine_similarity, if_neg (by simp), if_neg (by rw [hm]; norm_num), hm]
  rw [show dotList [1] [1] = 1 by simp [dotList]]
  norm_num

/-- Two pairs in the output never swap source and target, assuming the
input map has duplicate-free keys.  Taking `c' = c` this also shows the
two paths of a pair are distinct. -/
theorem generate_candidate_pairs_no_swap
    {files_data : List (String × NoteRec)} {t : ℝ}
    (hnd : (files_data.map Prod.fst).Nodup) {c c' : CandPair}
    (hc : c ∈ generate_candidate_pairs files_data t)
    (hc' : c' ∈ generate_candidate_pairs files_data t)
    (hst : c.source_path = c'.target_path)
    (hts : c.target_path = c'.source_path) : False := by
  have hndv := validVectors_keys_nodup hnd
  obtain ⟨i, j, hi, hj, hij, hsi, htj⟩ :=
    pairCandidates_positions (mem_generate_candidate_pairs.mp hc).1
  obtain ⟨i', j', hi', hj', hij', hsi', htj'⟩ :=
    pairCandidates_positions (mem_generate_candidate_pairs.mp hc').1
  have hkey : ∀ (n : Nat) (hn : n < (validVectors files_data).length),
      ((validVectors files_data).map Prod.fst).get ⟨n, by simpa using hn⟩
        = ((validVectors files_data).get ⟨n, hn⟩).1 := by
    intro n hn
    simp
  have hji' : j = i' := by
    have := (hndv.get_inj_iff (i := ⟨j, by simpa using hj⟩)
      (j := ⟨i', by simpa using hi'⟩)).mp (by
        rw [hkey j hj, hkey i' hi', htj, hsi', hts])
    simpa using this
  have hij'' : i = j' := by
    have := (hndv.get_inj_iff (i := ⟨i, by simpa using hi⟩)
      (j := ⟨j', by simpa using hj'⟩)).mp (by
        rw [hkey i hi, hkey j' hj', hsi, htj', hst])
    simpa using this
  omega

/-- Lexicographic comparison of two character lists. -/
def ltCharList : List Char → List Char → Bool
  | [], [] => false
  | [], _ :: _ => true
  | _ :: _, [] => false
  | a :: as, b :: bs =>
    if a < b then true else if b < a then false else ltCharList as bs

/-- Lexicographic (canonical) order on identifiers. -/
def strLt (a b : String) : Prop :=
  ltCharList a.data b.data = true

instance (a b : String) : Decidable (strLt a b) :=
  inferInstanceAs (Decidable (_ = true))

/-- The "canonical id order" tie-break asserted by the specification:
strictly greater similarity first, equal-similarity pairs ordered by the
lexicographic order of their `(source, target)` ids. -/
def specTieOrder (x y : CandPair) : Prop :=
  y.jina_similarity < x.jina_similarity ∨
    (x.jina_similarity = y.jina_similarity ∧
      (strLt x.source_path y.source_path ∨
        (x.source_path = y.source_path ∧ strLt x.target_path y.target_path)))

/-- Concrete three-file vector map (insertion order `b`, `a`, `c`, all
with embedding `[1]`) exhibiting the tie-break behaviour. -/
noncomputable def dataC6 : List (String × NoteRec) :=
  [("b", ⟨"", some [1], ""⟩), ("a", ⟨"", some [1], ""⟩), ("c", ⟨"", some [1], ""⟩)]

/-- Evaluation of `generate_candidate_pairs` on `dataC6` at threshold 0:
all three pairs tie at similarity 1 and stay in generation order. -/
theorem generate_candidate_pairs_dataC6 :
    generate_candidate_pairs dataC6 0 =
      [⟨"b", "a", 1⟩, ⟨"b", "c", 1⟩, ⟨"a", "c", 1⟩] := by
  have hv : validVectors dataC6 = [("b", [1]), ("a", [1]), ("c", [1])] := by
    simp [validVectors, dataC6, embTruthy]
  have hp : pairCandidates [("b", ([1] : List ℝ)), ("a", [1]), ("c", [1])] =
      [⟨"b", "a", cosine_similarity [1] [1]⟩,
       ⟨"b", "c", cosine_similarity [1] [1]⟩,
       ⟨"a", "c", cosine_similarity [1] [1]⟩] := by
    simp [pairCandidates]
  rw [generate_candidate_pairs, hv, hp, cos_one_one]
  rw [List.filter_eq_self.mpr (by
    intro a ha
    rcases List.mem_cons.mp ha with rfl | ha
    · exact decide_eq_true (show (0 : ℝ) ≤ 1 by norm_num)
    rcases List.mem_cons.mp ha with rfl | ha
    · exact decide_eq_true (show (0 : ℝ) ≤ 1 by norm_num)
    rcases List.mem_cons.mp ha with rfl | ha
    · exact decide_eq_true (show (0 : ℝ) ≤ 1 by norm_num)
    · simp at ha)]
  rw [List.insertionSort, List.insertionSort, List.insertionSort,
    List.insertionSort]
  rw [show List.orderedInsert simGE (⟨"a", "c", 1⟩ : CandPair) [] = [⟨"a", "c", 1⟩]
    from rfl]
  rw [List.orderedInsert, if_pos (show simGE ⟨"b", "c", 1⟩ ⟨"a", "c", 1⟩ from le_refl 1)]
  rw [List.orderedInsert, if_pos (show simGE ⟨"b", "a", 1⟩ ⟨"b", "c", 1⟩ from le_refl 1)]

/-- C6 (corrected), counterexample: on `dataC6` (keys inserted in order
`b`, `a`, `c`, identical vectors) all pairs tie at similarity 1, and the
pair `(b, c)` precedes `(a, c)` in the output, violating the claimed
canonical-id tie-break order. -/
theorem C6_counterexample :
    ¬ List.Pairwise specTieOrder (generate_candidate_pairs dataC6 0) := by
  rw [generate_candidate_pairs_dataC6]
  intro h
  have h23 := (List.pairwise_cons.mp (List.pairwise_cons.mp h).2).1
    (⟨"a", "c", 1⟩ : CandPair) (by simp)
  rcases h23 with hlt | ⟨_, hlex⟩
  · exact absurd hlt (by norm_num)
  · rcases hlex with hs | ⟨hse, _⟩
    · exact absurd hs (show ¬ strLt "b" "a" by decide)
    · exact absurd hse (show ¬ ("b" : String) = "a" by decide)

/-- C6 (amended): for every vector map with duplicate-free keys and every
threshold `t`, the candidate list contains no pair below `t`, never
contains both orderings of the same pair, and is sorted by descending
similarity; ties are left in pair-generation order (stable sort), not
re-ordered by canonical id order. -/
theorem C6_candidate_pairs (files_data : List (String × NoteRec)) (t : ℝ)
    (hnd : (files_data.map Prod.fst).Nodup) :
    (∀ c ∈ generate_candidate_pairs files_data t, t ≤ c.jina_similarity)
    ∧ (∀ c ∈ generate_candidate_pairs files_data t,
        ∀ c' ∈ generate_candidate_pairs files_data t,
          c.source_path = c'.target_path → c.target_path = c'.source_path →
            False)
    ∧ List.Sorted simGE (generate_candidate_pairs files_data t) := by
  refine ⟨?_, ?_, ?_⟩
  · intro c hc
    exact (mem_generate_candidate_pairs.mp hc).2
  · intro c hc c' hc' hst hts
    exact generate_candidate_pairs_no_swap hnd hc hc' hst hts
  · exact List.sorted_insertionSort simGE _

/-- Witness for `C6_candidate_pairs` on the concrete map `dataC6`. -/
theorem C6_witness :
    (dataC6.map Prod.fst).Nodup
    ∧ ((∀ c ∈ generate_candidate_pairs dataC6 0, (0 : ℝ) ≤ c.jina_similarity)
      ∧ (∀ c ∈ generate_candidate_pairs dataC6 0,
          ∀ c' ∈ generate_candidate_pairs dataC6 0,
            c.source_path = c'.target_path → c.target_path = c'.source_path →
              False)
      ∧ List.Sorted simGE (generate_candidate_pairs dataC6 0)) :=
  ⟨by decide, C6_candidate_pairs dataC6 0 (by decide)⟩

/-- C10 (confirmed): every emitted candidate pair names two distinct
files, each present in the input map with a non-null embedding; files
with a null or missing embedding never appear in a pair. -/
theorem C10_candidate_pair_sources (files_data : List (String × NoteRec))
    (t : ℝ) (hnd : (files_data.map Prod.fst).Nodup) :
    ∀ c ∈ generate_candidate_pairs files_data t,
      c.source_path ≠ c.target_path
      ∧ (∃ r, lookupA files_data c.source_path = some r ∧ r.embedding ≠ none)
      ∧ (∃ r, lookupA files_data c.target_path = some r ∧ r.embedding ≠ none) := by
  intro c hc
  have hmem : ∀ (p : String × List ℝ), p ∈ validVectors files_data →
      ∃ r, lookupA files_data p.1 = some r ∧ r.embedding ≠ none := by
    intro p hp
    obtain ⟨e, he, hfe⟩ := List.mem_map.mp hp
    obtain ⟨hef, het⟩ := List.mem_filter.mp he
    refine ⟨e.2, ?_, ?_⟩
    · have : (p.1, e.2) ∈ files_data := by
        rw [← hfe]
        exact hef
      exact lookupA_eq_some_of_mem hnd this
    · intro hn
      rw [hn] at het
      simp [embTruthy] at het
  obtain ⟨i, j, hi, hj, hij, hsi, htj⟩ :=
    pairCandidates_positions (mem_generate_candidate_pairs.mp hc).1
  refine ⟨?_, ?_, ?_⟩
  · intro hst
    exact generate_candidate_pairs_no_swap hnd hc hc hst hst.symm
  · rw [← hsi]
    exact hmem _ ((validVectors files_data).get_mem i hi)
  · rw [← htj]
    exact hmem _ ((validVectors files_data).get_mem j hj)

/-- Witness for `C10_candidate_pair_sources` on the concrete map
`dataC6`. -/
theorem C10_witness :
    (dataC6.map Prod.fst).Nodup
    ∧ ∀ c ∈ generate_candidate_pairs dataC6 0,
        c.source_path ≠ c.target_path
        ∧ (∃ r, lookupA dataC6 c.source_path = some r ∧ r.embedding ≠ none)
        ∧ (∃ r, lookupA dataC6 c.target_path = some r ∧ r.embedding ≠ none) :=
  ⟨by decide, C10_candidate_pair_sources dataC6 0 (by decide)⟩

/-! Score extraction (`extract_scores_from_text` in
`python_src/ai_scoring/scorer.py`). -/

/-- Value of a decimal digit string, Python `int`. -/
def digitsToNat (l : List Char) : Nat :=
  l.foldl (fun acc c => 10 * acc + (c.toNat - '0'.toNat)) 0

/-- The range clamp of the source: integers outside `[0, 10]` become 0. -/
def clamp10 (n : Nat) : Nat :=
  if n ≤ 10 then n else 0

/-- Python `clean_text = text.strip().replace(" ", "")`. -/
def cleanText (text : List Char) : List Char :=
  (pyStrip text).filter fun c => c ≠ ' '

/-- Whether the regex `^(\d+,)*\d+$` matches: the whole text is made of
non-empty digit groups separated by single commas. -/
def isDigitsCommaList (l : List Char) : Bool :=
  (l.splitOn ',').all fun g => !g.isEmpty && g.all Char.isDigit

/-- Fast-path result: split the cleaned text on commas and convert every
group, clamping out-of-range values to 0. -/
def fastScores (text : List Char) : List Nat :=
  ((cleanText text).splitOn ',').map fun g => clamp10 (digitsToNat g)

/-- The `scores` list as left by the fast-path block (kept even when its
length disagrees with `expected_count`). -/
def scoresBase (text : List Char) : List Nat :=
  if isDigitsCommaList (cleanText text) then fastScores text else []

/-- Membership in the regex word class `\w` (ASCII inputs). -/
def isWordChar (c : Char) : Bool :=
  c.isAlphanum || c = '_'

/-- A word boundary `\b` holds before the current position. -/
def bdyBefore (prev : Option Char) : Bool :=
  match prev with
  | none => true
  | some c => !isWordChar c

/-- A word boundary `\b` holds between the match and the rest. -/
def bdyNext : List Char → Bool
  | [] => true
  | c :: _ => !isWordChar c

/-- Left-to-right scan of `re.findall(r'\b(10|[0-9])\b', text)`: at each
position first try `10`, then a single digit, both with word boundaries
on each side; on a match continue after it, otherwise advance one
character.  `prev` is the character before the current position. -/
def scanTokens (prev : Option Char) : List Char → List Nat
  | [] => []
  | '1' :: '0' :: r =>
    if bdyBefore prev && bdyNext r then 10 :: scanTokens (some '0') r
    else scanTokens (some '1') ('0' :: r)
  | c :: r =>
    if bdyBefore prev && c.isDigit && bdyNext r then
      (c.toNat - '0'.toNat) :: scanTokens (some c) r
    else scanTokens (some c) r

/-- Left-to-right scan of `re.findall(r'(\d+)(?:,|$)', text)`: maximal
digit runs followed by a comma (consumed), by the end of the text, or by
a final trailing newline.  `run` holds the digits of the current run in
reverse. -/
def commaScanAux (run : List Char) : List Char → List Nat
  | [] => if run.isEmpty then [] else [digitsToNat run.reverse]
  | c :: r =>
    if c.isDigit then commaScanAux (c :: run) r
    else if c = ',' then
      if run.isEmpty then commaScanAux [] r
      else digitsToNat run.reverse :: commaScanAux [] r
    else if !run.isEmpty && c = '\n' && r.isEmpty then [digitsToNat run.reverse]
    else commaScanAux [] r

/-- The matches used by the tolerant fallback: the standalone-token scan,
or, when it finds nothing, the comma-terminated scan. -/
def scanMatches (text : List Char) : List Nat :=
  if (scanTokens none text).isEmpty then commaScanAux [] text
  else scanTokens none text

/-- The fallback loop: append each match (clamped to `[0, 10]`) and stop
as soon as the score list reaches `expected_count` exactly. -/
def appendScores (expected : Nat) : List Nat → List Nat → List Nat
  | scores, [] => scores
  | scores, m :: rest =>
    if (scores ++ [clamp10 m]).length = expected then scores ++ [clamp10 m]
    else appendScores expected (scores ++ [clamp10 m]) rest

/-- The score list after the fallback loop. -/
def fallbackScores (text : List Char) (expected : Nat) : List Nat :=
  appendScores expected (scoresBase text) (scanMatches text)

/-- Shallow embedding of `extract_scores_from_text` from
`python_src/ai_scoring/scorer.py`: fast path when the cleaned text is
exactly a comma-separated digit list of the expected length, otherwise
the tolerant fallback, followed by padding with 0 and truncation to the
expected length. -/
def extract_scores_from_text (text : List Char) (expected_count : Nat) :
    List Nat :=
  if isDigitsCommaList (cleanText text)
      ∧ (fastScores text).length = expected_count then
    fastScores text
  else
    (fallbackScores text expected_count
      ++ List.replicate
          (expected_count - (fallbackScores text expected_count).length) 0
      ).take expected_count

theorem clamp10_le (n : Nat) : clamp10 n ≤ 10 := by
  rw [clamp10]
  split <;> omega

theorem appendScores_mem {expected : Nat} :
    ∀ {ms scores : List Nat} {s : Nat}, s ∈ appendScores expected scores ms →
      s ∈ scores ∨ s ≤ 10 := by
  intro ms
  induction ms with
  | nil =>
    intro scores s h
    exact Or.inl (by simpa [appendScores] using h)
  | cons m rest ih =>
    intro scores s h
    rw [appendScores] at h
    have hsplit : s ∈ scores ++ [clamp10 m] → s ∈ scores ∨ s ≤ 10 := by
      intro hm
      rcases List.mem_append.mp hm with hm | hm
      · exact Or.inl hm
      · right
        rw [List.mem_singleton.mp hm]
        exact clamp10_le m
    split at h
    · exact hsplit h
    · rcases ih h with hm | hm
      · exact hsplit hm
      · exact Or.inr hm

theorem scoresBase_le {text : List Char} {s : Nat}
    (h : s ∈ scoresBase text) : s ≤ 10 := by
  rw [scoresBase] at h
  split at h
  · obtain ⟨g, _, hg⟩ := List.mem_map.mp h
    rw [← hg]
    exact clamp10_le _
  · simp at h

/-- Score extraction always yields exactly `expected_count` scores:
missing scores are padded with 0 and surplus scores are truncated. -/
theorem extract_scores_length (text : List Char) (n : Nat) :
    (extract_scores_from_text text n).length = n := by
  by_cases h : isDigitsCommaList (cleanText text)
      ∧ (fastScores text).length = n
  · rw [extract_scores_from_text, if_pos h]
    exact h.2
  · rw [extract_scores_from_text, if_neg h, List.length_take,
      List.length_append, List.length_replicate]
    omega

/-- C5 (confirmed): score extraction pads/truncates to exactly the
expected count, keeps every score in `[0, 10]`, and on the three
specification scenarios behaves as claimed: `"7, 3, 9"` parses via the
fast path to `[7, 3, 9]`, `"The scores are 7, 3, 9."` parses via the
tolerant fallback to `[7, 3, 9]`, `"unable to score"` parses to
`[0, 0, 0]`; a reply with more scores than pairs is truncated. -/
theorem C5_extract_scores (text : List Char) (n : Nat) :
    (extract_scores_from_text text n).length = n
    ∧ (∀ s ∈ extract_scores_from_text text n, s ≤ 10)
    ∧ extract_scores_from_text ("7, 3, 9".data) 3 = [7, 3, 9]
    ∧ extract_scores_from_text ("The scores are 7, 3, 9.".data) 3 = [7, 3, 9]
    ∧ extract_scores_from_text ("unable to score".data) 3 = [0, 0, 0]
    ∧ extract_scores_from_text ("1, 2, 3, 4".data) 3 = [1, 2, 3] := by
  refine ⟨extract_scores_length text n, ?_, by decide, by decide, by decide, by decide⟩
  · intro s hs
    by_cases h : isDigitsCommaList (cleanText text)
        ∧ (fastScores text).length = n
    · rw [extract_scores_from_text, if_pos h] at hs
      obtain ⟨g, _, hg⟩ := List.mem_map.mp hs
      rw [← hg]
      exact clamp10_le _
    · rw [extract_scores_from_text, if_neg h] at hs
      have hs' := List.take_subset n _ hs
      rcases List.mem_append.mp hs' with hm | hm
      · rcases appendScores_mem hm with hm | hm
        · exact scoresBase_le hm
        · exact hm
      · rw [List.eq_of_mem_replicate hm]
        omega

/-! Batch request construction (`build_ai_batch_request` in
`python_src/ai_scoring/scorer.py`) and response parsing
(`parse_ai_batch_response`). -/

/-- Configuration constants of `python_src/config.py`. -/
def AI_SCORING_BATCH_SIZE : Nat := 10

def AI_SCORING_MAX_CHARS_PER_NOTE : Nat := 2000

def AI_SCORING_MAX_TOTAL_CHARS : Nat := 23000

/-- Python `value or default` on an optional numeric setting: `None` and
`0` are falsy, so both fall back to the default. -/
def orDefault (o : Option Nat) (dflt : Nat) : Nat :=
  match o with
  | none => dflt
  | some v => if v = 0 then dflt else v

/-- One enriched pair handed to `build_ai_batch_request`. -/
structure PromptPair where
  source_path : String
  target_path : String
  source_name : List Char
  target_name : List Char
  source_content : List Char
  target_content : List Char
deriving DecidableEq

/-- The `pair_text` f-string for the pair at position `idx`, with both
contents truncated to `single_note_limit` characters.  This block is
identical across all provider branches of `build_ai_batch_request`. -/
def pairText (idx : Nat) (limit : Nat) (p : PromptPair) : List Char :=
  "[内容对 ".data ++ (Nat.repr (idx + 1)).data ++ "]\n内容一：".data
    ++ p.source_name ++ "\n".data ++ p.source_content.take limit
    ++ "\n\n内容二：".data ++ p.target_name ++ "\n".data
    ++ p.target_content.take limit ++ "\n\n".data

/-- The greedy budget loop shared by every provider branch of
`build_ai_batch_request`: walk the pairs in input order and stop at the
first pair whose `pair_text` would push the running total past the
budget.  Returns the included pairs with their texts. -/
def greedyBatch (limit budget : Nat) :
    Nat → Nat → List PromptPair → List (PromptPair × List Char)
  | _, _, [] => []
  | idx, total, p :: rest =>
    if budget < total + (pairText idx limit p).length then []
    else (p, pairText idx limit p)
      :: greedyBatch limit budget (idx + 1) (total + (pairText idx limit p).length) rest

/-- The pairs (with their texts) actually included in the request built
by `build_ai_batch_request`: the input is first truncated to `max_pairs`,
then filled greedily under the total-character budget.  The per-note
character limit is `min(max_chars_per_note or 2000, max_content_length)`
and the budget defaults follow Python `or` semantics. -/
def build_ai_batch_request_included (prompt_pairs : List PromptPair)
    (max_content_length : Nat) (max_pairs max_chars_per_note max_total_chars : Option Nat) :
    List (PromptPair × List Char) :=
  greedyBatch (min (orDefault max_chars_per_note AI_SCORING_MAX_CHARS_PER_NOTE) max_content_length)
    (orDefault max_total_chars AI_SCORING_MAX_TOTAL_CHARS)
    0 0 (prompt_pairs.take (orDefault max_pairs AI_SCORING_BATCH_SIZE))

/-- One parsed scoring result row. -/
structure ScoreResult where
  source_path : String
  target_path : String
  ai_score : Nat
deriving DecidableEq

/-- Shallow embedding of `parse_ai_batch_response` (all provider branches
run the same loop after extracting the reply text `content` from the
vendor-specific JSON shape): every prompt pair at an index below the
score-list length receives a result with the score at its index
(`scores[idx] or 0` is the identity on naturals). -/
def parse_ai_batch_response (content : List Char)
    (prompt_pairs : List PromptPair) : List ScoreResult :=
  if prompt_pairs.isEmpty then []
  else
    (prompt_pairs.zip (extract_scores_from_text content prompt_pairs.length)).map
      fun pe => ScoreResult.mk pe.1.source_path pe.1.target_path pe.2

/-- Structure of the greedy loop: the included pairs form a prefix of the
input, their total text length respects the budget, and the first
excluded pair (if any) would have exceeded it. -/
theorem greedyBatch_spec (limit budget : Nat) :
    ∀ (l : List PromptPair) (idx total : Nat),
      ∃ rest, l = (greedyBatch limit budget idx total l).map Prod.fst ++ rest
        ∧ (greedyBatch limit budget idx total l = []
            ∨ total + ((greedyBatch limit budget idx total l).map
                fun x => x.2.length).sum ≤ budget)
        ∧ ∀ h : rest ≠ [],
            budget < total
              + ((greedyBatch limit budget idx total l).map fun x => x.2.length).sum
              + (pairText (idx + (greedyBatch limit budget idx total l).length)
                  limit (rest.head h)).length := by
  intro l
  induction l with
  | nil =>
    intro idx total
    exact ⟨[], by simp [greedyBatch], Or.inl rfl, fun h => absurd rfl h⟩
  | cons p l' ih =>
    intro idx total
    by_cases hb : budget < total + (pairText idx limit p).length
    · refine ⟨p :: l', ?_, Or.inl ?_, ?_⟩
      · rw [greedyBatch, if_pos hb]
        simp
      · rw [greedyBatch, if_pos hb]
      · intro h
        rw [greedyBatch, if_pos hb]
        simpa using hb
    · obtain ⟨rest, hsplit, hsum, hnext⟩ := ih (idx + 1) (total + (pairText idx limit p).length)
      refine ⟨rest, ?_, Or.inr ?_, ?_⟩
      · rw [greedyBatch, if_neg hb]
        simpa using hsplit
      · rw [greedyBatch, if_neg hb]
        rcases hsum with he | hle
        · simp [he]
          omega
        · simp only [List.map_cons, List.sum_cons]
          omega
      · intro h
        have hn := hnext h
        rw [greedyBatch, if_neg hb]
        simp only [List.map_cons, List.sum_cons, List.length_cons]
        rw [show idx + ((greedyBatch limit budget (idx + 1)
            (total + (pairText idx limit p).length) l').length + 1)
          = idx + 1 + (greedyBatch limit budget (idx + 1)
            (total + (pairText idx limit p).length) l').length by omega]
        omega

/-- C4 (corrected), counterexample: with a total-character budget of 1,
the single prompt pair does not fit the batch (its `pair_text` is longer
than 1 character), so the built request contains no pair at all; yet
response parsing over the full prompt-pair list still assigns this never
sent pair the score parsed from the model reply, which the orchestrator
then persists.  The claim that no pair is assigned a score without
having been sent is therefore false. -/
theorem C4_counterexample :
    build_ai_batch_request_included
        [⟨"a.md", "b.md", "a".data, "b".data, "x".data, "y".data⟩]
        100 none none (some 1) = []
    ∧ parse_ai_batch_response ("5".data)
        [⟨"a.md", "b.md", "a".data, "b".data, "x".data, "y".data⟩]
      = [⟨"a.md", "b.md", 5⟩] := by
  refine ⟨by decide, by decide⟩

/-- C4 (amended): the pairs included in a batch request form a greedy
prefix, in input order, of the pair list truncated to `max_pairs`: their
total text length respects the total-character budget and the first
excluded pair (when one exists) would have exceeded it.  However,
remaining pairs do NOT flow to the next batch: response parsing still
produces one scored result for every pair of the full prompt-pair list,
so pairs excluded from the request are assigned a (padded) score without
having been sent. -/
theorem C4_batch_construction (prompt_pairs : List PromptPair)
    (max_content_length : Nat) (max_pairs max_chars_per_note max_total_chars : Option Nat) :
    ((build_ai_batch_request_included prompt_pairs max_content_length
        max_pairs max_chars_per_note max_total_chars).map Prod.fst)
      <+: (prompt_pairs.take (orDefault max_pairs AI_SCORING_BATCH_SIZE))
    ∧ (build_ai_batch_request_included prompt_pairs max_content_length
          max_pairs max_chars_per_note max_total_chars = []
        ∨ ((build_ai_batch_request_included prompt_pairs max_content_length
            max_pairs max_chars_per_note max_total_chars).map
              fun x => x.2.length).sum
            ≤ orDefault max_total_chars AI_SCORING_MAX_TOTAL_CHARS)
    ∧ (∃ rest, prompt_pairs.take (orDefault max_pairs AI_SCORING_BATCH_SIZE)
          = (build_ai_batch_request_included prompt_pairs max_content_length
              max_pairs max_chars_per_note max_total_chars).map Prod.fst ++ rest
        ∧ ∀ h : rest ≠ [],
            orDefault max_total_chars AI_SCORING_MAX_TOTAL_CHARS
              < ((build_ai_batch_request_included prompt_pairs max_content_length
                  max_pairs max_chars_per_note max_total_chars).map
                    fun x => x.2.length).sum
                + (pairText (build_ai_batch_request_included prompt_pairs max_content_length
                    max_pairs max_chars_per_note max_total_chars).length
                    (min (orDefault max_chars_per_note AI_SCORING_MAX_CHARS_PER_NOTE)
                      max_content_length)
                    (rest.head h)).length)
    ∧ ∀ content, (parse_ai_batch_response content prompt_pairs).length
        = prompt_pairs.length := by
  obtain ⟨rest, hsplit, hsum, hnext⟩ := greedyBatch_spec
    (min (orDefault max_chars_per_note AI_SCORING_MAX_CHARS_PER_NOTE) max_content_length)
    (orDefault max_total_chars AI_SCORING_MAX_TOTAL_CHARS)
    (prompt_pairs.take (orDefault max_pairs AI_SCORING_BATCH_SIZE)) 0 0
  refine ⟨⟨rest, hsplit.symm⟩, ?_, ⟨rest, hsplit, fun h => by simpa using hnext h⟩, ?_⟩
  · rcases hsum with he | hle
    · exact Or.inl he
    · exact Or.inr (by simpa using hle)
  · intro content
    rw [parse_ai_batch_response]
    by_cases hp : prompt_pairs.isEmpty
    · rw [if_pos hp]
      rw [List.isEmpty_iff] at hp
      simp [hp]
    · rw [if_neg hp, List.length_map, List.length_zip, extract_scores_length]
      omega

/-- Witness for `C4_batch_construction` at a concrete pair list and
budget. -/
theorem C4_witness :
    ((build_ai_batch_request_included
        [⟨"a.md", "b.md", "a".data, "b".data, "x".data, "y".data⟩]
        100 none none (some 1)).map Prod.fst)
      <+: ([⟨"a.md", "b.md", "a".data, "b".data, "x".data, "y".data⟩].take
        (orDefault none AI_SCORING_BATCH_SIZE))
    ∧ ∀ content, (parse_ai_batch_response content
          [⟨"a.md", "b.md", "a".data, "b".data, "x".data, "y".data⟩]).length
        = 1 :=
  ⟨(C4_batch_construction _ 100 none none (some 1)).1,
    (C4_batch_construction _ 100 none none (some 1)).2.2.2⟩

/-! Batched embedding retrieval (`get_jina_embeddings_batch` in
`python_src/embeddings/generator.py`).  The HTTP layer is modelled by an
oracle: one `JinaResp` per attempt of the retry loop. -/

/-- An embedding vector. -/
abbrev Vec := List ℝ

/-- Outcome of one attempt of the retry loop: a parsed HTTP 200 response
(each `data` entry's optional `embedding` field), a request exception
carrying whether a 4xx status was attached, or any other exception. -/
inductive JinaResp where
  | httpOk (data : List (Option Vec))
  | exn (is4xx : Bool)
  | otherExn

/-- The texts actually sent to the provider: Python keeps `text` with
`text and text.strip()` truthy. -/
def validTexts (texts : List (List Char)) : List (List Char) :=
  texts.filter fun t => !t.isEmpty && !(pyStrip t).isEmpty

/-- The original positions of the valid texts (`text_indices`). -/
def textIndicesAux (i : Nat) : List (List Char) → List Nat
  | [] => []
  | t :: rest =>
    if !t.isEmpty && !(pyStrip t).isEmpty then i :: textIndicesAux (i + 1) rest
    else textIndicesAux (i + 1) rest

def textIndices (texts : List (List Char)) : List Nat :=
  textIndicesAux 0 texts

/-- One assignment step of the scatter loop: write a truthy embedding at
its original position, skip falsy ones. -/
def scatterOp (acc : List (Option Vec)) (pr : Nat × Option Vec) :
    List (Option Vec) :=
  match pr.2 with
  | some v => if v.isEmpty then acc else acc.set pr.1 (some v)
  | none => acc

/-- Scatter the response entries back onto the original positions:
`embeddings[original_idx] = data[i]` for every truthy entry. -/
def scatterEmb (n : Nat) (ti : List Nat) (data : List (Option Vec)) :
    List (Option Vec) :=
  (ti.zip data).foldl scatterOp (List.replicate n none)

/-- The retry loop of `get_jina_embeddings_batch`: a well-formed response
(truthy `data` of the right length) is scattered; a malformed response, a
4xx exception or an unknown exception returns all-`None` immediately; any
other request exception retries with the next response; exhausting the
attempts returns all-`None`. -/
def jinaLoop (n : Nat) (ti : List Nat) (vtLen : Nat) :
    List JinaResp → List (Option Vec)
  | [] => List.replicate n none
  | r :: rest =>
    match r with
    | .httpOk data =>
      if !data.isEmpty ∧ data.length = vtLen then scatterEmb n ti data
      else List.replicate n none
    | .exn is4xx =>
      if is4xx then List.replicate n none else jinaLoop n ti vtLen rest
    | .otherExn => List.replicate n none

/-- Shallow embedding of `get_jina_embeddings_batch` from
`python_src/embeddings/generator.py`.  `responses` lists the provider's
behaviour on successive attempts (the Python loop runs `max_retries`
attempts, i.e. `responses.length = max_retries`); the payload of every
attempted call is `validTexts texts`. -/
def get_jina_embeddings_batch (texts : List (List Char))
    (apiKey modelName : String) (responses : List JinaResp) :
    List (Option Vec) :=
  if texts.isEmpty then []
  else if apiKey = "" then List.replicate texts.length none
  else if modelName = "" then List.replicate texts.length none
  else if (validTexts texts).isEmpty then List.replicate texts.length none
  else jinaLoop texts.length (textIndices texts) (validTexts texts).length responses

theorem scatterOp_length (acc : List (Option Vec)) (pr : Nat × Option Vec) :
    (scatterOp acc pr).length = acc.length := by
  rw [scatterOp]
  rcases pr with ⟨i, _ | v⟩
  · rfl
  · by_cases hv : v.isEmpty <;> simp [hv]

theorem foldl_scatterOp_length :
    ∀ (ps : List (Nat × Option Vec)) (acc : List (Option Vec)),
      (ps.foldl scatterOp acc).length = acc.length := by
  intro ps
  induction ps with
  | nil => intro acc; rfl
  | cons q rest ih =>
    intro acc
    rw [List.foldl_cons, ih, scatterOp_length]

theorem scatterEmb_length (n : Nat) (ti : List Nat) (data : List (Option Vec)) :
    (scatterEmb n ti data).length = n := by
  rw [scatterEmb, foldl_scatterOp_length, List.length_replicate]

theorem foldl_scatterOp_get?_not_mem :
    ∀ (ps : List (Nat × Option Vec)) (acc : List (Option Vec)) (i : Nat),
      (∀ p ∈ ps, p.1 ≠ i) → (ps.foldl scatterOp acc)[i]? = acc[i]? := by
  intro ps
  induction ps with
  | nil => intro acc i _; rfl
  | cons q rest ih =>
    intro acc i h
    rw [List.foldl_cons, ih _ _ (fun p hp => h p (List.mem_cons_of_mem _ hp))]
    rw [scatterOp]
    rcases hq : q.2 with _ | v
    · rfl
    · by_cases hv : v.isEmpty
      · simp [hv]
      · simp only [hv, if_neg Bool.false_ne_true, Bool.false_eq_true, if_false]
        exact List.getElem?_set_ne (h q (List.mem_cons_self _ _))

theorem foldl_scatterOp_get?_mem :
    ∀ (ps : List (Nat × Option Vec)) (acc : List (Option Vec)),
      (ps.map Prod.fst).Nodup →
      ∀ p ∈ ps, ∀ v, p.2 = some v → v.isEmpty = false → p.1 < acc.length →
        (ps.foldl scatterOp acc)[p.1]? = some (some v) := by
  intro ps
  induction ps with
  | nil => intro acc _ p hp; simp at hp
  | cons q rest ih =>
    intro acc hnd p hp v hv hne hlt
    rw [List.map_cons, List.nodup_cons] at hnd
    rcases List.mem_cons.mp hp with he | hm
    · subst he
      rw [List.foldl_cons]
      rw [foldl_scatterOp_get?_not_mem _ _ _ (fun p' hp' hne' => hnd.1 (by
        rw [← hne']
        exact List.mem_map.mpr ⟨p', hp', rfl⟩))]
      rw [scatterOp, hv]
      simp only [hne, Bool.false_eq_true, if_false]
      rw [List.getElem?_set_self', List.getElem?_eq_getElem hlt]
      rfl
    · rw [List.foldl_cons]
      exact ih _ hnd.2 p hm v hv hne (by rw [scatterOp_length]; exact hlt)

theorem zip_map_fst_sublist {β : Type} :
    ∀ (a : List Nat) (b : List β), ((a.zip b).map Prod.fst).Sublist a := by
  intro a
  induction a with
  | nil => intro b; simp
  | cons x xs ih =>
    intro b
    rcases b with _ | ⟨y, ys⟩
    · simp
    · rw [List.zip_cons_cons, List.map_cons]
      exact (ih ys).cons₂ x

theorem jinaLoop_shape (n : Nat) (ti : List Nat) (vtLen : Nat) :
    ∀ responses, jinaLoop n ti vtLen responses = List.replicate n none
      ∨ ∃ data, jinaLoop n ti vtLen responses = scatterEmb n ti data := by
  intro responses
  induction responses with
  | nil => exact Or.inl rfl
  | cons r rest ih =>
    rcases r with data | is4xx | _
    · rw [jinaLoop]
      split
      · exact Or.inr ⟨data, rfl⟩
      · exact Or.inl rfl
    · rw [jinaLoop]
      by_cases h4 : is4xx
      · simp [h4]
      · simpa [h4] using ih
    · exact Or.inl rfl

theorem textIndicesAux_mem :
    ∀ (l : List (List Char)) (k i : Nat), i ∈ textIndicesAux k l →
      k ≤ i ∧ ∃ hj : i - k < l.length,
        (l.get ⟨i - k, hj⟩).isEmpty = false
          ∧ (pyStrip (l.get ⟨i - k, hj⟩)).isEmpty = false := by
  intro l
  induction l with
  | nil => intro k i h; simp [textIndicesAux] at h
  | cons t rest ih =>
    intro k i h
    rw [textIndicesAux] at h
    have hstep : i ∈ textIndicesAux (k + 1) rest →
        k ≤ i ∧ ∃ hj : i - k < (t :: rest).length,
          ((t :: rest).get ⟨i - k, hj⟩).isEmpty = false
            ∧ (pyStrip ((t :: rest).get ⟨i - k, hj⟩)).isEmpty = false := by
      intro hm
      obtain ⟨hk, hj, hprops⟩ := ih (k + 1) i hm
      refine ⟨by omega, ?_⟩
      rw [show i - k = (i - (k + 1)) + 1 from by omega]
      refine ⟨by simpa using Nat.succ_lt_succ hj, ?_⟩
      rw [List.get_cons_succ]
      exact hprops
    split at h
    · rcases List.mem_cons.mp h with he | hm
      · subst he
        rename_i hpred
        refine ⟨le_refl _, ?_⟩
        rw [Nat.sub_self]
        refine ⟨by simp, ?_⟩
        simp only [List.get]
        simp only [Bool.and_eq_true, Bool.not_eq_true'] at hpred
        exact hpred
      · exact hstep hm
    · exact hstep h

theorem textIndicesAux_sorted :
    ∀ (l : List (List Char)) (k : Nat),
      List.Sorted (· < ·) (textIndicesAux k l) := by
  intro l
  induction l with
  | nil => intro k; simp [textIndicesAux]
  | cons t rest ih =>
    intro k
    rw [textIndicesAux]
    split
    · rw [List.sorted_cons]
      refine ⟨?_, ih (k + 1)⟩
      intro b hb
      have := (textIndicesAux_mem rest (k + 1) b hb).1
      omega
    · exact ih (k + 1)

theorem textIndices_lt {texts : List (List Char)} {i : Nat}
    (h : i ∈ textIndices texts) : i < texts.length := by
  obtain ⟨_, hj, _⟩ := textIndicesAux_mem texts 0 i h
  omega

/-- C8 part: output length always equals input length. -/
theorem get_jina_embeddings_batch_length (texts : List (List Char))
    (apiKey modelName : String) (responses : List JinaResp) :
    (get_jina_embeddings_batch texts apiKey modelName responses).length
      = texts.length := by
  rw [get_jina_embeddings_batch]
  split
  · rename_i h
    rw [List.isEmpty_iff] at h
    simp [h]
  split
  · rw [List.length_replicate]
  split
  · rw [List.length_replicate]
  split
  · rw [List.length_replicate]
  rcases jinaLoop_shape texts.length (textIndices texts)
      (validTexts texts).length responses with h | ⟨data, h⟩
  · rw [h, List.length_replicate]
  · rw [h, scatterEmb_length]

/-- C8 (confirmed): `get_jina_embeddings_batch` returns one slot per
input text; only texts that are non-empty with non-blank strip are ever
part of the provider payload (`valid_texts`); blank slots come back as
null; and on a well-formed first response the `i`-th valid slot receives
the `i`-th response embedding at its original position (order-preserving
alignment). -/
theorem C8_embed_batch (texts : List (List Char)) (apiKey modelName : String)
    (responses : List JinaResp) :
    (get_jina_embeddings_batch texts apiKey modelName responses).length
      = texts.length
    ∧ (∀ t ∈ validTexts texts,
        t.isEmpty = false ∧ (pyStrip t).isEmpty = false)
    ∧ (∀ i, ∀ hi : i < texts.length,
        (pyStrip (texts.get ⟨i, hi⟩)).isEmpty = true →
        (get_jina_embeddings_batch texts apiKey modelName responses)[i]?
          = some none)
    ∧ (∀ data rest, responses = JinaResp.httpOk data :: rest →
        data.isEmpty = false → data.length = (validTexts texts).length →
        texts.isEmpty = false → ¬ apiKey = "" → ¬ modelName = "" →
        (validTexts texts).isEmpty = false →
        ∀ j, ∀ hj : j < (textIndices texts).length, ∀ hjd : j < data.length,
        ∀ v : Vec, data.get ⟨j, hjd⟩ = some v → v.isEmpty = false →
          (get_jina_embeddings_batch texts apiKey modelName
            responses)[(textIndices texts).get ⟨j, hj⟩]? = some (some v)) := by
  refine ⟨get_jina_embeddings_batch_length texts apiKey modelName responses,
    ?_, ?_, ?_⟩
  · intro t ht
    have := (List.mem_filter.mp ht).2
    simp only [Bool.and_eq_true, Bool.not_eq_true'] at this
    exact this
  · intro i hi hblank
    have hnotin : i ∉ textIndices texts := by
      intro hmem
      obtain ⟨_, hj, hprops⟩ := textIndicesAux_mem texts 0 i hmem
      simp only [Nat.sub_zero] at hj hprops
      rw [show texts.get ⟨i, hj⟩ = texts.get ⟨i, hi⟩ from rfl, hblank] at hprops
      exact absurd hprops.2 (by simp)
    rw [get_jina_embeddings_batch]
    split
    · rename_i h
      rw [List.isEmpty_iff] at h
      rw [h] at hi
      exact absurd hi (by simp)
    split
    · simp [List.getElem?_replicate, hi]
    split
    · simp [List.getElem?_replicate, hi]
    split
    · simp [List.getElem?_replicate, hi]
    rcases jinaLoop_shape texts.length (textIndices texts)
        (validTexts texts).length responses with h | ⟨data, h⟩
    · rw [h]
      simp [List.getElem?_replicate, hi]
    · rw [h, scatterEmb]
      rw [foldl_scatterOp_get?_not_mem _ _ _ (fun p hp => by
        intro hpe
        exact hnotin (hpe ▸ (zip_map_fst_sublist (textIndices texts) data).subset
          (List.mem_map.mpr ⟨p, hp, rfl⟩)))]
      simp [List.getElem?_replicate, hi]
  · intro data rest hresp hne hlen hte hak hmn hve j hj hjd v hv hvne
    rw [get_jina_embeddings_batch, if_neg (by simp [hte]), if_neg hak,
      if_neg hmn, if_neg (by simp [hve]), hresp, jinaLoop,
      if_pos ⟨by simp [hne], hlen⟩, scatterEmb]
    have hzlen : j < ((textIndices texts).zip data).length := by
      rw [List.length_zip]
      omega
    have hpz : ((textIndices texts).zip data).get ⟨j, hzlen⟩
        = ((textIndices texts).get ⟨j, hj⟩, data.get ⟨j, hjd⟩) := by
      simp [List.get_zip]
    have hnd : ((((textIndices texts).zip data)).map Prod.fst).Nodup :=
      List.Nodup.sublist (zip_map_fst_sublist _ _)
        (textIndicesAux_sorted texts 0).nodup
    have hmem : (((textIndices texts).get ⟨j, hj⟩, data.get ⟨j, hjd⟩))
        ∈ (textIndices texts).zip data := by
      rw [← hpz]
      exact List.get_mem _ _ _
    have hbound : ((textIndices texts).get ⟨j, hj⟩, data.get ⟨j, hjd⟩).1
        < (List.replicate texts.length (none : Option Vec)).length := by
      rw [List.length_replicate]
      exact textIndices_lt (List.get_mem _ _ _)
    have := foldl_scatterOp_get?_mem ((textIndices texts).zip data)
      (List.replicate texts.length none) hnd
      ((textIndices texts).get ⟨j, hj⟩, data.get ⟨j, hjd⟩) hmem v hv hvne hbound
    exact this

/-- Witness for `C8_embed_batch`: two texts, the second blank, one
response embedding. -/
theorem C8_witness :
    (pyStrip (" ".data)).isEmpty = true
    ∧ (get_jina_embeddings_batch ["a".data, " ".data] "k" "m"
        [JinaResp.httpOk [some [1]]])[1]? = some none
    ∧ (get_jina_embeddings_batch ["a".data, " ".data] "k" "m"
        [JinaResp.httpOk [some [1]]])[(textIndices
          ["a".data, " ".data]).get ⟨0, by decide⟩]? = some (some [1]) := by
  refine ⟨by decide, ?_, ?_⟩
  · exact (C8_embed_batch ["a".data, " ".data] "k" "m"
      [JinaResp.httpOk [some [1]]]).2.2.1 1 (by decide) (by decide)
  · exact (C8_embed_batch ["a".data, " ".data] "k" "m"
      [JinaResp.httpOk [some [1]]]).2.2.2 [some [1]] [] rfl rfl rfl rfl
      (by decide) (by decide) rfl 0 (by decide) (by decide) [1] rfl rfl

/-! Embedding pipeline orchestration (`process_and_embed_notes` in
`python_src/orchestrator/embed_pipeline.py`).  The filesystem is a map
from relative path to the loader's result (`read_markdown_with_frontmatter`
returns the pre-marker body and the front-matter `note_id`); the SHA-256
digest is an abstract `hashFn`; fresh UUIDs come from `freshIds`; the
embedding provider is an oracle. -/

/-- A filesystem: relative path to (body, front-matter note_id). -/
def Fs : Type := String → Option (List Char × Option String)

/-- The `content_to_hash` computation of `process_and_embed_notes`: the
extracted pre-marker content, or, when the marker is absent, the whole
body with trailing CR/LF stripped plus one newline. -/
def contentToHash (body : List Char) : List Char :=
  match extract_content_for_hashing body with
  | some c => c
  | none => pyRstripCRLF body ++ ['\n']

/-- The `note_id` resolution: keep a truthy front-matter id, otherwise a
fresh UUID (which is also written back to the file). -/
def noteIdOf (fmId : Option String) (freshId : String) : String :=
  match fmId with
  | some nid => if nid = "" then freshId else nid
  | none => freshId

/-- The per-file row inserted into the `notes` table. -/
structure FileInfo where
  file_path : String
  content_hash : String
  note_id : String
deriving DecidableEq

/-- What the per-file loop body does with one relative path: delete a
missing file's rows, skip an up-to-date file (same stored hash and a
non-null stored vector), or queue the truncated body for embedding. -/
inductive EmbedAction where
  | missing
  | skip (rec : NoteRec)
  | embedIt (content : List Char) (info : FileInfo)

/-- Decision taken for one relative path, mirroring the loop body of
`process_and_embed_notes`: `db` is the preloaded `files_data_from_db`
map, which stays fixed for the whole run. -/
def fileAction (fs : Fs) (hashFn : List Char → String)
    (db : List (String × NoteRec)) (maxChars : Nat) (freshId : String)
    (relPath : String) : EmbedAction :=
  match fs relPath with
  | none => .missing
  | some (body, fmId) =>
    match lookupA db relPath with
    | some ex =>
      if ex.hash = hashFn (contentToHash body) ∧ ex.embedding.isSome then
        .skip ex
      else
        .embedIt (body.take maxChars)
          ⟨relPath, hashFn (contentToHash body), noteIdOf fmId freshId⟩
    | none =>
      .embedIt (body.take maxChars)
        ⟨relPath, hashFn (contentToHash body), noteIdOf fmId freshId⟩

/-- Batch splitting (`range(0, total, batch_size)` with slices), written
with an accumulator so that it is structurally recursive: `cur` holds the
current batch in reverse, `k` its remaining capacity. -/
def chunkAux {α : Type} (n : Nat) : List α → Nat → List α → List (List α)
  | cur, _, [] => if cur.isEmpty then [] else [cur.reverse]
  | cur, 0, x :: xs => cur.reverse :: chunkAux n [x] (n - 1) xs
  | cur, k + 1, x :: xs => chunkAux n (x :: cur) k xs

/-- Split a list into consecutive batches of size `n` (meaningful for
`n ≥ 1`; Python raises on a zero step). -/
def chunkList {α : Type} (n : Nat) (l : List α) : List (List α) :=
  chunkAux n [] n l

/-- The embed-queue of one batch: contents and rows of the files the skip
logic did not filter out. -/
def batchEmbedItems (fs : Fs) (hashFn : List Char → String)
    (db : List (String × NoteRec)) (maxChars : Nat)
    (freshIds : String → String) (batch : List String) :
    List (List Char × FileInfo) :=
  batch.filterMap fun p =>
    match fileAction fs hashFn db maxChars (freshIds p) p with
    | .embedIt c i => some (c, i)
    | _ => none

/-- The payloads of the embedding-provider calls of a whole run: one call
per batch whose embed-queue is non-empty. -/
def embedCallsSent (fs : Fs) (hashFn : List Char → String)
    (db : List (String × NoteRec)) (maxChars : Nat)
    (freshIds : String → String) (batchSize : Nat) (files : List String) :
    List (List (List Char)) :=
  (chunkList batchSize files).filterMap fun b =>
    if (batchEmbedItems fs hashFn db maxChars freshIds b).isEmpty then none
    else some ((batchEmbedItems fs hashFn db maxChars freshIds b).map Prod.fst)

/-- The paths re-embedded during a run (those sent to the provider). -/
def embeddedPaths (fs : Fs) (hashFn : List Char → String)
    (db : List (String × NoteRec)) (maxChars : Nat)
    (freshIds : String → String) (batchSize : Nat) (files : List String) :
    List String :=
  (((chunkList batchSize files).map
    (batchEmbedItems fs hashFn db maxChars freshIds)).join).map
      fun it => it.2.file_path

/-- Python dict assignment on an insertion-ordered association list:
overwrite in place, else append. -/
def dictInsert : List (String × NoteRec) → String → NoteRec →
    List (String × NoteRec)
  | [], k, v => [(k, v)]
  | e :: rest, k, v =>
    if e.1 = k then (k, v) :: rest else e :: dictInsert rest k v

/-- The in-place effect of one loop iteration on the returned
`all_files_data_for_return` map: missing files are popped, up-to-date
files keep their preloaded record, queued files are written later with
the provider's result. -/
def dbStep (fs : Fs) (hashFn : List Char → String)
    (db : List (String × NoteRec)) (maxChars : Nat)
    (freshIds : String → String) (m : List (String × NoteRec))
    (p : String) : List (String × NoteRec) :=
  match fileAction fs hashFn db maxChars (freshIds p) p with
  | .missing => m.eraseP fun e => e.1 == p
  | .skip ex => dictInsert m p ex
  | .embedIt _ _ => m

/-- Processing of one batch: the per-file loop first, then, when the
embed-queue is non-empty, one provider call whose results are zipped with
the queued rows and written back. -/
def applyChunk (fs : Fs) (hashFn : List Char → String)
    (db : List (String × NoteRec)) (maxChars : Nat)
    (freshIds : String → String)
    (provider : List (List Char) → List (Option Vec))
    (acc : List (String × NoteRec)) (chunk : List String) :
    List (String × NoteRec) :=
  let m1 := chunk.foldl (dbStep fs hashFn db maxChars freshIds) acc
  let items := batchEmbedItems fs hashFn db maxChars freshIds chunk
  if items.isEmpty then m1
  else
    ((items.zip (provider (items.map Prod.fst))).foldl
      (fun m pr =>
        dictInsert m pr.1.2.file_path
          ⟨pr.1.2.content_hash, pr.2, pr.1.2.note_id⟩) m1)

/-- Shallow embedding of the `files` map returned by
`process_and_embed_notes`: start from the preloaded map and process the
input paths batch by batch. -/
def process_and_embed_notes_files (fs : Fs) (hashFn : List Char → String)
    (db : List (String × NoteRec)) (maxChars : Nat)
    (freshIds : String → String)
    (provider : List (List Char) → List (Option Vec))
    (batchSize : Nat) (files : List String) : List (String × NoteRec) :=
  (chunkList batchSize files).foldl
    (applyChunk fs hashFn db maxChars freshIds provider) db

/-! Relevance scoring orchestration (`score_candidates` in
`python_src/orchestrator/link_scoring.py`). -/

/-- A candidate pair as consumed by `score_candidates` (paths only — the
candidate structures carry no note ids). -/
structure ScorePair where
  source_path : String
  target_path : String
deriving DecidableEq

/-- One row of the `scores` table relevant to the skip logic. -/
structure ScoreRow where
  note_id_a : String
  file_name_a : String
  note_id_b : String
  file_name_b : String
deriving DecidableEq

/-- The `existing_pairs` set: the stored `(file_name_a, file_name_b)`
path pairs closed under swapping. -/
def existingPathPairs (rows : List ScoreRow) : List (String × String) :=
  (rows.map fun r => (r.file_name_a, r.file_name_b))
    ++ (rows.map fun r => (r.file_name_b, r.file_name_a))

/-- The `valid_pairs` list after the two filter stages of
`score_candidates`: drop pairs with a missing file, then (without force,
when any pairs survive) drop pairs whose path pair is already in the
scores store. -/
def score_candidates_filtered (fsExists : String → Bool)
    (rows : List ScoreRow) (force : Bool) (pairs : List ScorePair) :
    List ScorePair :=
  let valid := pairs.filter fun p =>
    fsExists p.source_path && fsExists p.target_path
  if !force && !valid.isEmpty then
    valid.filter fun p =>
      !((existingPathPairs rows).contains (p.source_path, p.target_path))
  else valid

/-- The batches of pairs sent to the AI provider: one call per
`ai_scoring_batch_size` slice of the remaining pairs (every slice is
non-empty, and file reads succeed because existence was just checked, so
each slice issues exactly one provider call). -/
def score_candidates_batches (fsExists : String → Bool)
    (rows : List ScoreRow) (force : Bool) (pairs : List ScorePair)
    (batchSize : Nat) : List (List ScorePair) :=
  if pairs.isEmpty then []
  else if (score_candidates_filtered fsExists rows force pairs).isEmpty then []
  else chunkList batchSize (score_candidates_filtered fsExists rows force pairs)

theorem lookupA_cons_self {e : String × NoteRec}
    {rest : List (String × NoteRec)} {f : String} (h : e.1 = f) :
    lookupA (e :: rest) f = some e.2 := by
  rw [lookupA, List.find?_cons_of_pos _ (by simp [h])]
  rfl

theorem lookupA_cons_ne {e : String × NoteRec}
    {rest : List (String × NoteRec)} {f : String} (h : ¬ e.1 = f) :
    lookupA (e :: rest) f = lookupA rest f := by
  rw [lookupA, List.find?_cons_of_neg _ (by simp [h]), lookupA]

theorem lookupA_dictInsert_self (m : List (String × NoteRec)) (k : String)
    (v : NoteRec) : lookupA (dictInsert m k v) k = some v := by
  induction m with
  | nil => exact lookupA_cons_self rfl
  | cons e rest ih =>
    rw [dictInsert]
    by_cases he : e.1 = k
    · rw [if_pos he]
      exact lookupA_cons_self rfl
    · rw [if_neg he, lookupA_cons_ne he]
      exact ih

theorem lookupA_dictInsert_ne (m : List (String × NoteRec)) {q f : String}
    (h : q ≠ f) (v : NoteRec) :
    lookupA (dictInsert m q v) f = lookupA m f := by
  induction m with
  | nil =>
    rw [dictInsert, lookupA_cons_ne h]
  | cons e rest ih =>
    rw [dictInsert]
    by_cases he : e.1 = q
    · rw [if_pos he, lookupA_cons_ne h, lookupA_cons_ne (by rw [he]; exact h)]
    · rw [if_neg he]
      by_cases hef : e.1 = f
      · rw [lookupA_cons_self hef, lookupA_cons_self hef]
      · rw [lookupA_cons_ne hef, lookupA_cons_ne hef]
        exact ih

theorem lookupA_eraseP_ne (m : List (String × NoteRec)) {q f : String}
    (h : q ≠ f) :
    lookupA (m.eraseP fun e => e.1 == q) f = lookupA m f := by
  induction m with
  | nil => rfl
  | cons e rest ih =>
    by_cases he : e.1 = q
    · rw [List.eraseP_cons_of_pos (by simp [he]),
        lookupA_cons_ne (by rw [he]; exact h)]
    · rw [List.eraseP_cons_of_neg (by simp [he])]
      by_cases hef : e.1 = f
      · rw [lookupA_cons_self hef, lookupA_cons_self hef]
      · rw [lookupA_cons_ne hef, lookupA_cons_ne hef]
        exact ih

theorem chunkAux_mem {α : Type} (n : Nat) :
    ∀ (l cur : List α) (k : Nat) (c : List α) (x : α),
      c ∈ chunkAux n cur k l → x ∈ c → x ∈ cur ∨ x ∈ l := by
  intro l
  induction l with
  | nil =>
    intro cur k c x hc hx
    rw [chunkAux] at hc
    split at hc
    · simp at hc
    · rw [List.mem_singleton.mp hc] at hx
      exact Or.inl (List.mem_reverse.mp hx)
  | cons y ys ih =>
    intro cur k c x hc hx
    rcases k with _ | k'
    · rw [chunkAux] at hc
      rcases List.mem_cons.mp hc with he | hm
      · rw [he] at hx
        exact Or.inl (List.mem_reverse.mp hx)
      · rcases ih [y] (n - 1) c x hm hx with h1 | h1
        · exact Or.inr (List.mem_cons.mpr (Or.inl (List.mem_singleton.mp h1)))
        · exact Or.inr (List.mem_cons_of_mem _ h1)
    · rw [chunkAux] at hc
      rcases ih (y :: cur) k' c x hc hx with h1 | h1
      · rcases List.mem_cons.mp h1 with he | hm
        · exact Or.inr (List.mem_cons.mpr (Or.inl he))
        · exact Or.inl hm
      · exact Or.inr (List.mem_cons_of_mem _ h1)

theorem chunkList_mem {α : Type} {n : Nat} {l c : List α} {x : α}
    (hc : c ∈ chunkList n l) (hx : x ∈ c) : x ∈ l := by
  rcases chunkAux_mem n l [] n c x hc hx with h | h
  · simp at h
  · exact h

theorem fileAction_embedIt_path {fs : Fs} {hashFn : List Char → String}
    {db : List (String × NoteRec)} {maxChars : Nat} {freshId : String}
    {p : String} {c : List Char} {i : FileInfo}
    (h : fileAction fs hashFn db maxChars freshId p = .embedIt c i) :
    i.file_path = p := by
  rw [fileAction] at h
  split at h
  · exact absurd h (by simp)
  · split at h
    · split at h
      · exact absurd h (by simp)
      · injection h with h1 h2
        rw [← h2]
    · injection h with h1 h2
      rw [← h2]

theorem batchEmbedItems_mem {fs : Fs} {hashFn : List Char → String}
    {db : List (String × NoteRec)} {maxChars : Nat}
    {freshIds : String → String} {batch : List String}
    {it : List Char × FileInfo}
    (h : it ∈ batchEmbedItems fs hashFn db maxChars freshIds batch) :
    ∃ p ∈ batch,
      fileAction fs hashFn db maxChars (freshIds p) p = .embedIt it.1 it.2
      ∧ it.2.file_path = p := by
  obtain ⟨p, hp, hact⟩ := List.mem_filterMap.mp h
  refine ⟨p, hp, ?_⟩
  split at hact
  · rename_i c i hci
    injection hact with hit
    rw [← hit]
    exact ⟨hci, fileAction_embedIt_path hci⟩
  · exact absurd hact (by simp)

theorem dbStep_preserves {fs : Fs} {hashFn : List Char → String}
    {db : List (String × NoteRec)} {maxChars : Nat}
    {freshIds : String → String} {f : String} {rec : NoteRec}
    (hact : fileAction fs hashFn db maxChars (freshIds f) f = .skip rec)
    (m : List (String × NoteRec)) (q : String)
    (hm : lookupA m f = some rec) :
    lookupA (dbStep fs hashFn db maxChars freshIds m q) f = some rec := by
  by_cases hqf : q = f
  · subst hqf
    simp only [dbStep, hact]
    exact lookupA_dictInsert_self m q rec
  · cases haq : fileAction fs hashFn db maxChars (freshIds q) q with
    | missing =>
      simp only [dbStep, haq]
      rw [lookupA_eraseP_ne m hqf]
      exact hm
    | skip ex =>
      simp only [dbStep, haq]
      rw [lookupA_dictInsert_ne m hqf]
      exact hm
    | embedIt c i =>
      simp only [dbStep, haq]
      exact hm

theorem foldl_dbStep_preserves {fs : Fs} {hashFn : List Char → String}
    {db : List (String × NoteRec)} {maxChars : Nat}
    {freshIds : String → String} {f : String} {rec : NoteRec}
    (hact : fileAction fs hashFn db maxChars (freshIds f) f = .skip rec) :
    ∀ (batch : List String) (m : List (String × NoteRec)),
      lookupA m f = some rec →
      lookupA (batch.foldl (dbStep fs hashFn db maxChars freshIds) m) f
        = some rec := by
  intro batch
  induction batch with
  | nil => intro m hm; exact hm
  | cons q qs ih =>
    intro m hm
    rw [List.foldl_cons]
    exact ih _ (dbStep_preserves hact m q hm)

theorem foldl_write_preserves {f : String} {rec : NoteRec} :
    ∀ (zs : List ((List Char × FileInfo) × Option Vec))
      (m : List (String × NoteRec)),
      (∀ z ∈ zs, z.1.2.file_path ≠ f) → lookupA m f = some rec →
      lookupA (zs.foldl (fun m pr =>
        dictInsert m pr.1.2.file_path
          ⟨pr.1.2.content_hash, pr.2, pr.1.2.note_id⟩) m) f = some rec := by
  intro zs
  induction zs with
  | nil => intro m _ hm; exact hm
  | cons z rest ih =>
    intro m hz hm
    rw [List.foldl_cons]
    refine ih _ (fun z' hz' => hz z' (List.mem_cons_of_mem _ hz')) ?_
    rw [lookupA_dictInsert_ne m (hz z (List.mem_cons_self _ _))]
    exact hm

theorem applyChunk_preserves {fs : Fs} {hashFn : List Char → String}
    {db : List (String × NoteRec)} {maxChars : Nat}
    {freshIds : String → String} {f : String} {rec : NoteRec}
    (hact : fileAction fs hashFn db maxChars (freshIds f) f = .skip rec)
    (provider : List (List Char) → List (Option Vec))
    (m : List (String × NoteRec)) (chunk : List String)
    (hm : lookupA m f = some rec) :
    lookupA (applyChunk fs hashFn db maxChars freshIds provider m chunk) f
      = some rec := by
  rw [applyChunk]
  have hm1 := foldl_dbStep_preserves hact chunk m hm
  split
  · exact hm1
  · refine foldl_write_preserves _ _ ?_ hm1
    intro z hz hpath
    obtain ⟨hz1, _⟩ := List.mem_zip hz
    obtain ⟨p, _, hactp, hpp⟩ := batchEmbedItems_mem hz1
    rw [hpath] at hpp
    rw [← hpp, hact] at hactp
    exact absurd hactp (by simp)

theorem run_preserves {fs : Fs} {hashFn : List Char → String}
    {db : List (String × NoteRec)} {maxChars : Nat}
    {freshIds : String → String} {f : String} {rec : NoteRec}
    (hact : fileAction fs hashFn db maxChars (freshIds f) f = .skip rec)
    (provider : List (List Char) → List (Option Vec)) :
    ∀ (chunks : List (List String)) (m : List (String × NoteRec)),
      lookupA m f = some rec →
      lookupA (chunks.foldl
        (applyChunk fs hashFn db maxChars freshIds provider) m) f
        = some rec := by
  intro chunks
  induction chunks with
  | nil => intro m hm; exact hm
  | cons c cs ih =>
    intro m hm
    rw [List.foldl_cons]
    exact ih _ (applyChunk_preserves hact provider m c hm)

/-- A pair whose path pair (in either orientation) is already in the
scores store is dropped by the smart-skip filter and appears in no
provider batch (shared by C1 and C3). -/
theorem scored_pair_not_sent (fsExists : String → Bool)
    (rows : List ScoreRow) (pairs : List ScorePair) (batchSize : Nat)
    (p : ScorePair)
    (hp : (p.source_path, p.target_path) ∈ existingPathPairs rows) :
    ∀ b ∈ score_candidates_batches fsExists rows false pairs batchSize,
      p ∉ b := by
  intro b hb hpb
  rw [score_candidates_batches] at hb
  split at hb
  · simp at hb
  split at hb
  · simp at hb
  · have hpf : p ∈ score_candidates_filtered fsExists rows false pairs :=
      chunkList_mem hb hpb
    simp only [score_candidates_filtered] at hpf
    split at hpf
    · have hcont := (List.mem_filter.mp hpf).2
      rw [Bool.not_eq_true'] at hcont
      have : (existingPathPairs rows).contains
          (p.source_path, p.target_path) = true := by
        simpa using hp
      rw [this] at hcont
      exact absurd hcont (by simp)
    · rename_i hcond
      rw [Bool.and_eq_true, Bool.not_eq_true'] at hcond
      push_neg at hcond
      have hval := hcond (by simp)
      cases hbool : (pairs.filter fun p =>
          fsExists p.source_path && fsExists p.target_path).isEmpty with
      | false => exact absurd (by simp [hbool]) hval
      | true =>
        rw [List.isEmpty_iff] at hbool
        rw [hbool] at hpf
        exact absurd hpf (by simp)

/-- C1 (confirmed): re-running the pipeline issues no provider work for
current entities.  A document whose stored fingerprint equals its live
fingerprint and whose stored vector is non-null is not re-embedded (its
path is never part of a provider payload) and its stored record survives
the run unchanged, whatever the provider returns for other files; a
candidate pair whose path pair is already in the scores store is dropped
before batching, so no AI-provider call contains it. -/
theorem C1_pipeline_idempotent (fs : Fs) (hashFn : List Char → String)
    (db : List (String × NoteRec)) (maxChars : Nat)
    (freshIds : String → String) (batchSize : Nat) (files : List String)
    (f : String) (body : List Char) (fmId : Option String) (rec : NoteRec)
    (hfs : fs f = some (body, fmId))
    (hdb : lookupA db f = some rec)
    (hhash : rec.hash = hashFn (contentToHash body))
    (hvec : rec.embedding.isSome = true)
    (fsExists : String → Bool) (rows : List ScoreRow)
    (pairs : List ScorePair) (p : ScorePair)
    (hp : (p.source_path, p.target_path) ∈ existingPathPairs rows) :
    f ∉ embeddedPaths fs hashFn db maxChars freshIds batchSize files
    ∧ (∀ provider, lookupA (process_and_embed_notes_files fs hashFn db
        maxChars freshIds provider batchSize files) f = some rec)
    ∧ ∀ b ∈ score_candidates_batches fsExists rows false pairs batchSize,
        p ∉ b := by
  have hact : fileAction fs hashFn db maxChars (freshIds f) f = .skip rec := by
    simp only [fileAction, hfs, hdb]
    rw [if_pos ⟨hhash, hvec⟩]
  refine ⟨?_, ?_, scored_pair_not_sent fsExists rows pairs batchSize p hp⟩
  · intro hmem
    rw [embeddedPaths] at hmem
    obtain ⟨it, hit, hpath⟩ := List.mem_map.mp hmem
    obtain ⟨itemsList, hitems, hitin⟩ := List.mem_join.mp hit
    obtain ⟨b, _, hbe⟩ := List.mem_map.mp hitems
    rw [← hbe] at hitin
    obtain ⟨q, _, hactq, hqp⟩ := batchEmbedItems_mem hitin
    rw [hpath] at hqp
    rw [← hqp, hact] at hactq
    exact absurd hactq (by simp)
  · intro provider
    exact run_preserves hact provider (chunkList batchSize files) db hdb

/-- Concrete filesystem for the pipeline witnesses: one markerless file
`a.md` with body `hello` and note id `id1`. -/
def fsC1 : Fs := fun q =>
  if q = "a.md" then some ("hello".data, some "id1") else none

/-- The up-to-date stored record of `a.md` (fingerprint of the fallback
hashable content, non-null vector). -/
noncomputable def recC1 : NoteRec :=
  ⟨String.mk (contentToHash ("hello".data)), some [1], "id1"⟩

noncomputable def dbC1 : List (String × NoteRec) := [("a.md", recC1)]

/-- Witness for `C1_pipeline_idempotent` on a one-file vault and a
one-row scores store. -/
theorem C1_witness :
    fsC1 "a.md" = some ("hello".data, some "id1")
    ∧ lookupA dbC1 "a.md" = some recC1
    ∧ recC1.hash = String.mk (contentToHash ("hello".data))
    ∧ recC1.embedding.isSome = true
    ∧ ("a.md", "b.md")
        ∈ existingPathPairs [ScoreRow.mk "i1" "a.md" "i2" "b.md"]
    ∧ ("a.md" ∉ embeddedPaths fsC1 String.mk dbC1 1000 (fun _ => "f") 10 ["a.md"]
      ∧ (∀ provider, lookupA (process_and_embed_notes_files fsC1 String.mk
          dbC1 1000 (fun _ => "f") provider 10 ["a.md"]) "a.md" = some recC1)
      ∧ ∀ b ∈ score_candidates_batches (fun _ => true)
          [ScoreRow.mk "i1" "a.md" "i2" "b.md"] false
          [ScorePair.mk "a.md" "b.md"] 10,
          ScorePair.mk "a.md" "b.md" ∉ b) :=
  ⟨rfl, rfl, rfl, rfl, by decide,
    C1_pipeline_idempotent fsC1 String.mk dbC1 1000 (fun _ => "f") 10
      ["a.md"] "a.md" ("hello".data) (some "id1") recC1 rfl rfl rfl rfl
      (fun _ => true) [ScoreRow.mk "i1" "a.md" "i2" "b.md"]
      [ScorePair.mk "a.md" "b.md"] (ScorePair.mk "a.md" "b.md") (by decide)⟩

/-- C2 (corrected), counterexample: the body `hello` contains no boundary
marker, so `extract_content_for_hashing` signals `NONE_FOUND`; yet the
pipeline does not exclude the document — on an empty store the file is
queued, its fallback content is hashed, and its body is sent to the
embedding provider in the single batch. -/
theorem C2_counterexample :
    extract_content_for_hashing ("hello".data) = none
    ∧ embedCallsSent fsC1 String.mk [] 1000 (fun _ => "f") 10 ["a.md"]
        = [["hello".data]]
    ∧ embeddedPaths fsC1 String.mk [] 1000 (fun _ => "f") 10 ["a.md"]
        = ["a.md"] := by
  refine ⟨by decide, by decide, by decide⟩

/-- C2 (amended): a raw body without the boundary marker makes
`extract_content_for_hashing` signal `NONE_FOUND`, but the document is
NOT excluded from the pipeline: the orchestrator falls back to hashing
the whole body (trailing CR/LF stripped plus one newline) and the
document proceeds to embedding like any other (here: a file with no
matching store record is queued for the provider). -/
theorem C2_marker_missing (body : List Char)
    (hm : ¬ hashBoundaryMarker <:+: body) :
    extract_content_for_hashing body = none
    ∧ contentToHash body = pyRstripCRLF body ++ ['\n']
    ∧ ∀ (fs : Fs) (hashFn : List Char → String)
        (db : List (String × NoteRec)) (maxChars : Nat) (freshId : String)
        (relPath : String) (fmId : Option String),
        fs relPath = some (body, fmId) → lookupA db relPath = none →
        fileAction fs hashFn db maxChars freshId relPath
          = EmbedAction.embedIt (body.take maxChars)
              ⟨relPath, hashFn (pyRstripCRLF body ++ ['\n']),
                noteIdOf fmId freshId⟩ := by
  have hext : extract_content_for_hashing body = none := by
    rw [extract_content_for_hashing, (beforeFirst_eq_none body).mpr hm]
  have hcth : contentToHash body = pyRstripCRLF body ++ ['\n'] := by
    rw [contentToHash, hext]
  refine ⟨hext, hcth, ?_⟩
  intro fs hashFn db maxChars freshId relPath fmId hfs hdb
  simp only [fileAction, hfs, hdb, hcth]

/-- Witness for `C2_marker_missing` at the body `hello`. -/
theorem C2_witness :
    ¬ hashBoundaryMarker <:+: ("hello".data)
    ∧ extract_content_for_hashing ("hello".data) = none
    ∧ contentToHash ("hello".data) = pyRstripCRLF ("hello".data) ++ ['\n'] :=
  ⟨(beforeFirst_eq_none ("hello".data)).mp (by decide), by
    have := C2_marker_missing ("hello".data)
      ((beforeFirst_eq_none ("hello".data)).mp (by decide))
    exact ⟨this.1, this.2.1⟩⟩

/-- The stable-id assignment of the C3 scenario: the document now at
`new.md` is the one that was scored as `old.md` (same note id `id1`). -/
def noteIdC3 : String → String :=
  fun q => if q = "new.md" then "id1" else "id2"

/-- C3 (corrected), counterexample: the scores store holds a row for the
note-id pair (`id1`, `id2`), and the candidate pair (`new.md`, `b.md`)
refers to exactly those two documents (the first was renamed from
`old.md`); without force the pair is nevertheless placed in a provider
batch, because the skip check compares file paths, not note ids. -/
theorem C3_counterexample :
    (∃ row ∈ [ScoreRow.mk "id1" "old.md" "id2" "b.md"],
        row.note_id_a = noteIdC3 "new.md" ∧ row.note_id_b = noteIdC3 "b.md")
    ∧ ScorePair.mk "new.md" "b.md"
        ∈ (score_candidates_batches (fun q => q == "new.md" || q == "b.md")
            [ScoreRow.mk "id1" "old.md" "id2" "b.md"] false
            [ScorePair.mk "new.md" "b.md"] 10).join := by
  refine ⟨⟨ScoreRow.mk "id1" "old.md" "id2" "b.md", by decide, by decide, by decide⟩,
    by decide⟩

/-- C3 (amended): the smart-skip of `score_candidates` is keyed by the
pair of file paths, not by stable ids: without force, a pair whose
`(source_path, target_path)` matches a stored row in either orientation
is never sent to the AI provider; a pair whose display path changed since
it was scored does not match and is re-sent. -/
theorem C3_skip_keyed_by_path (fsExists : String → Bool)
    (rows : List ScoreRow) (pairs : List ScorePair) (batchSize : Nat)
    (p : ScorePair)
    (hp : (p.source_path, p.target_path) ∈ existingPathPairs rows) :
    ∀ b ∈ score_candidates_batches fsExists rows false pairs batchSize,
      p ∉ b :=
  scored_pair_not_sent fsExists rows pairs batchSize p hp

/-- Witness for `C3_skip_keyed_by_path` on a one-row store. -/
theorem C3_witness :
    ("a.md", "b.md") ∈ existingPathPairs [ScoreRow.mk "i1" "a.md" "i2" "b.md"]
    ∧ ∀ b ∈ score_candidates_batches (fun _ => true)
        [ScoreRow.mk "i1" "a.md" "i2" "b.md"] false
        [ScorePair.mk "a.md" "b.md", ScorePair.mk "c.md" "d.md"] 10,
        ScorePair.mk "a.md" "b.md" ∉ b :=
  ⟨by decide, C3_skip_keyed_by_path (fun _ => true)
    [ScoreRow.mk "i1" "a.md" "i2" "b.md"]
    [ScorePair.mk "a.md" "b.md", ScorePair.mk "c.md" "d.md"] 10
    (ScorePair.mk "a.md" "b.md") (by decide)⟩

end JinaLinker
